import Mathlib

/-!
Shallow embedding of the trait-resolution and command-assembly engine of
kopoli/gobu (src/gobu.go): the `gobu` build-configuration accumulator, the
trait registry built by `newgobutraits`, and the operations `check`, `apply`,
`Getcmd`, `TargetOs`.

Modelling conventions:
* Go slices are Lean lists.  In the source no reachable state distinguishes a
  nil slice from an empty non-nil slice (every append adds at least one
  element and every reset sets the slice to nil), so the `!= nil` tests in
  `Getcmd` are rendered as `!= []`.
* Data read from outside the engine is collected in an `Ext` record: the
  current time formatted per RFC3339 (`time.Now()`), `runtime.GOOS`,
  `runtime.GOARCH`, and the result of
  `filepath.Base(filepath.Abs(filepath.Dir(os.Args[0])))` used by
  `getBinaryName`, which is `none` when `filepath.Abs` returns an error.
* A Go `panic` inside the engine (the `panic(err)` in the `name=` trait
  closure at src/gobu.go line 316) is modelled as `Except.error ()`; normal
  results are `Except.ok`.  `apply` returns no error value in Go, so
  `Except.error` in this development always means an abrupt Go panic, never a
  returned error.
* The `os.Setenv` call inside `SetEnv` mutates the process environment and on
  failure only prints a diagnostic; neither affects any field of `gobu`, so it
  has no counterpart in the state.
* `applied` is a Go `map[string]bool` used as a set; it is modelled as a list
  of names with `contains` membership.  The error built by `check` joins the
  keys of a Go map whose iteration order is unspecified; the model returns
  the set of invalid base names as a first-occurrence-ordered deduplicated
  list, and the claims below only concern which names appear.
-/

namespace GobuM

/-- The `gobu` struct of src/gobu.go (the BuildConfig of the spec). -/
structure gobu where
  ldflags    : List String
  buildflags : List String
  gcflags    : List String
  environ    : List String
  givenOs    : String
  version    : String
  binary     : String
  subcmd     : String
  name       : String
  dopackage  : Bool
deriving Repr, DecidableEq

/-- External inputs consumed by trait effects (see module comment). -/
structure Ext where
  now      : String
  hostOS   : String
  hostArch : String
  binBase  : Option String
deriving Repr, DecidableEq

/-- `gobu.AddLdFlags`: append link flags. -/
def gobu.AddLdFlags (g : gobu) (flags : List String) : gobu :=
  { g with ldflags := g.ldflags ++ flags }

/-- `gobu.ResetLdFlags`: clear link flags. -/
def gobu.ResetLdFlags (g : gobu) : gobu :=
  { g with ldflags := [] }

/-- `gobu.AddVar`: append `-X name=value` link flags. -/
def gobu.AddVar (g : gobu) (n v : String) : gobu :=
  g.AddLdFlags ["-X", n ++ "=" ++ v]

/-- `gobu.AddBuildFlags`: append build flags. -/
def gobu.AddBuildFlags (g : gobu) (flags : List String) : gobu :=
  { g with buildflags := g.buildflags ++ flags }

/-- `gobu.ResetBuildFlags`: clear build flags. -/
def gobu.ResetBuildFlags (g : gobu) : gobu :=
  { g with buildflags := [] }

/-- `gobu.AddCompileFlags`: append compile (gc) flags. -/
def gobu.AddCompileFlags (g : gobu) (flags : List String) : gobu :=
  { g with gcflags := g.gcflags ++ flags }

/-- `gobu.ResetCompileFlags`: clear compile flags. -/
def gobu.ResetCompileFlags (g : gobu) : gobu :=
  { g with gcflags := [] }

/-- `gobu.SetEnv`: append `key=value` to the environment list and track the
`GOOS` value in `givenOs`.  The `os.Setenv` side effect and its best-effort
diagnostic on failure touch nothing in the struct (see module comment). -/
def gobu.SetEnv (g : gobu) (key value : String) : gobu :=
  { g with
    environ := g.environ ++ [key ++ "=" ++ value],
    givenOs := if key = "GOOS" then value else g.givenOs }

/-- `gobu.TargetOs`: the last `GOOS` value set, falling back to
`runtime.GOOS` (here the `hostOS` parameter). -/
def gobu.TargetOs (hostOS : String) (g : gobu) : String :=
  if g.givenOs ≠ "" then g.givenOs else hostOS

/-- `gobu.Getcmd`: defaults `binary` to "go" and `subcmd` to "build"
(mutating the receiver, hence the returned `gobu`), then renders the command
vector and returns it with the environment vector. -/
def gobu.Getcmd (g : gobu) : gobu × List String × List String :=
  let b := if g.binary = "" then "go" else g.binary
  let s := if g.subcmd = "" then "build" else g.subcmd
  let g1 : gobu := { g with binary := b, subcmd := s }
  let c0 := [b, s]
  let c1 := if g1.buildflags ≠ [] then c0 ++ g1.buildflags else c0
  let c2 := if g1.ldflags ≠ [] then
      c1 ++ ["-ldflags", String.intercalate " " g1.ldflags] else c1
  let c3 := if g1.gcflags ≠ [] then
      c2 ++ ["-gcflags", String.intercalate " " g1.gcflags] else c2
  (g1, c3, g1.environ)

/-- `gobu.getTransformedBinaryName`: substitute `%n` in the name template. -/
def gobu.getTransformedBinaryName (g : gobu) (n : String) : String :=
  if g.name ≠ "" then (g.name).replace "%n" n else n

/-- The fresh `gobu` allocated in `main`, carrying only the version string
obtained from the version provider (`git describe`). -/
def freshGobu (ver : String) : gobu :=
  { ldflags := [], buildflags := [], gcflags := [], environ := [],
    givenOs := "", version := ver, binary := "", subcmd := "",
    name := "", dopackage := false }

/-- Characters of a token up to and including the first `=`; the whole token
when it has no `=`.  This is `strings.SplitAfter(name, "=")[0]` of
`parseTrait`. -/
def baseChars : List Char → List Char
  | [] => []
  | c :: cs => if c = '=' then [c] else c :: baseChars cs

/-- `parseTrait`: the base name of a trait token. -/
def parseTrait (n : String) : String :=
  ⟨baseChars n.data⟩

/-- Characters of a token after the first `=`.  This is
`strings.SplitN(name, "=", 2)[1]`, defined (and only used by `apply`) when
the token contains `=`. -/
def paramChars : List Char → List Char
  | [] => []
  | c :: cs => if c = '=' then cs else paramChars cs

/-- The parameter value carried by a `name=value` token. -/
def paramOf (n : String) : String :=
  ⟨paramChars n.data⟩

/-- `isFlagTrait`: whether the name contains `=`
(`strings.Index(name, "=") != -1`). -/
def isFlagTrait (n : String) : Bool :=
  n.data.contains '='

/-- The names registered by `newgobutraits` via `t.add` and `t.addFlag`. -/
def registeredNames : List String :=
  ["nocgo", "static", "shrink", "race", "rebuild", "trimpath",
   "linux", "windows", "windowsgui", "verbose", "debug", "install",
   "version", "package", "release", "default",
   "go=", "ldflags=", "buildflags=", "gcflags=", "name="]

/-- Membership in the trait registry (`_, ok := g.traits[n]`). -/
def isRegistered (base : String) : Bool :=
  registeredNames.contains base

/-- The trait closures of `newgobutraits` that mutate only the `gobu`, keyed
by registered base name; `p` is the parameter value for the `addFlag` traits.
`Except.error ()` models the `panic(err)` in the `name=` closure, reached
when `getBinaryName` fails (`Ext.binBase = none`).  The composite closures
(`windowsgui`, `release`, `default`) call back into `apply` and live in
`runEffect`. -/
def runLeaf (ext : Ext) (base p : String) (g : gobu) : Except Unit gobu :=
  match base with
  | "nocgo" => .ok (g.SetEnv "CGO_ENABLED" "0")
  | "static" => .ok (g.AddLdFlags ["-extldflags", "\"-static\""])
  | "shrink" => .ok (g.AddLdFlags ["-s", "-w"])
  | "race" => .ok (g.AddBuildFlags ["-race"])
  | "rebuild" => .ok (g.AddBuildFlags ["-a"])
  | "trimpath" => .ok (g.AddBuildFlags ["-trimpath"])
  | "linux" => .ok (g.SetEnv "GOOS" "linux")
  | "windows" => .ok (g.SetEnv "GOOS" "windows")
  | "verbose" => .ok (g.AddBuildFlags ["-v"])
  | "debug" => .ok (g.AddBuildFlags ["-x"])
  | "install" => .ok { g with subcmd := "install" }
  | "version" =>
      let g1 := g.AddVar "main.timestamp" ext.now
      let g2 := g1.AddVar "main.version" g1.version
      let g3 := g2.AddVar "main.buildGOOS" ext.hostOS
      .ok (g3.AddVar "main.buildGOARCH" ext.hostArch)
  | "package" => .ok { g with dopackage := true }
  | "go=" => .ok { g with binary := p }
  | "ldflags=" => .ok ((g.ResetLdFlags).AddLdFlags [p])
  | "buildflags=" => .ok ((g.ResetBuildFlags).AddBuildFlags [p])
  | "gcflags=" => .ok ((g.ResetCompileFlags).AddCompileFlags [p])
  | "name=" =>
      let g1 := { g with name := p }
      match ext.binBase with
      | none => .error ()
      | some b => .ok (g1.AddBuildFlags ["-o", g1.getTransformedBinaryName b])
  | _ => .ok g

/-- State threaded through `gobutraits.apply`: the shared `gobu` and the
`applied` set of the registry. -/
structure TState where
  gb : gobu
  applied : List String
deriving Repr, DecidableEq

/-- Run the effect of a registered base name.  The three composite closures
re-enter `apply` through `rec`; every other name delegates to `runLeaf`. -/
def runEffect (rec : Ext → TState → List String → Except Unit TState)
    (ext : Ext) (base p : String) (st : TState) : Except Unit TState :=
  if base = "windowsgui" then
    match rec ext st ["windows"] with
    | .error e => .error e
    | .ok st1 => .ok { st1 with gb := st1.gb.AddLdFlags ["-H", "windowsgui"] }
  else if base = "release" then
    rec ext st ["shrink", "version", "static", "rebuild", "trimpath"]
  else if base = "default" then
    rec ext st ["version"]
  else
    match runLeaf ext base p st.gb with
    | .error e => .error e
    | .ok g => .ok { st with gb := g }

/-- The loop body of `gobutraits.apply`: left to right, skip a token whose
base name is already applied or not registered, otherwise run its effect and
then mark the base name applied. -/
def applyList (rec : Ext → TState → List String → Except Unit TState)
    (ext : Ext) (st : TState) : List String → Except Unit TState
  | [] => .ok st
  | n :: rest =>
    let b := parseTrait n
    if st.applied.contains b then applyList rec ext st rest
    else if isRegistered b then
      match runEffect rec ext b (paramOf n) st with
      | .error e => .error e
      | .ok st1 =>
          applyList rec ext { st1 with applied := b :: st1.applied } rest
    else applyList rec ext st rest

/-- Fuelled semantics of `gobutraits.apply`: fuel is consumed only when a
composite trait effect re-enters `apply`.  The actual composites expand into
non-composite constituents only, so fuel 2 already computes the exact
behaviour (theorem `apply_fuel_stabilizes`); exhausted fuel returns the state
unchanged and is unreachable from fuel 2 on this registry. -/
def applyFuel : Nat → Ext → TState → List String → Except Unit TState
  | 0, _, st, _ => .ok st
  | f + 1, ext, st, names => applyList (applyFuel f) ext st names

/-- `gobutraits.apply` on the registry built by `newgobutraits`. -/
def apply (ext : Ext) (st : TState) (names : List String) :
    Except Unit TState :=
  applyFuel 2 ext st names

/-- The loop body of `check`: record the base name of an unregistered token
(`inv[n] = true` on the Go map, here deduplicated insertion at the back). -/
def invStep (inv : List String) (n : String) : List String :=
  if isRegistered (parseTrait n) then inv
  else if inv.contains (parseTrait n) then inv else inv ++ [parseTrait n]

/-- The deduplicated base names of the tokens that are not registered, in
first-occurrence order (the key set of the `inv` map of `check`). -/
def invalidBases (names : List String) : List String :=
  names.foldl invStep []

/-- `gobutraits.check`: `none` when every token's base name is registered,
otherwise the set of unknown base names carried by the returned error. -/
def check (names : List String) : Option (List String) :=
  if invalidBases names = [] then none else some (invalidBases names)

/-- The link flags of an `apply` result, `none` when it panicked. -/
def ldflagsOf (r : Except Unit TState) : Option (List String) :=
  match r with
  | .ok st => some st.gb.ldflags
  | .error _ => none

/-- The `gobu` of an `apply` result, `none` when it panicked. -/
def gbOf (r : Except Unit TState) : Option gobu :=
  match r with
  | .ok st => some st.gb
  | .error _ => none

/-- The command vector as §4.1 of the spec words it: tool binary (default
"go"), subcommand (default "build"), the build flags in append order, then
only if non-empty the space-joined link flags as the single argument of
`-ldflags`, then only if non-empty the space-joined compile flags as the
single argument of `-gcflags`. -/
def renderCommandSpec (g : gobu) : List String :=
  [if g.binary = "" then "go" else g.binary,
   if g.subcmd = "" then "build" else g.subcmd]
  ++ g.buildflags
  ++ (if g.ldflags = [] then []
      else ["-ldflags", String.intercalate " " g.ldflags])
  ++ (if g.gcflags = [] then []
      else ["-gcflags", String.intercalate " " g.gcflags])

/-- A concrete external-input record whose binary-name resolution succeeds. -/
def extOk : Ext :=
  { now := "2024-01-01T00:00:00Z", hostOS := "linux", hostArch := "amd64",
    binBase := some "gobu" }

/-- A concrete external-input record where `filepath.Abs` failed, so the
binary base name is unavailable. -/
def extNoPath : Ext :=
  { now := "2024-01-01T00:00:00Z", hostOS := "linux", hostArch := "amd64",
    binBase := none }

/-- A fresh trait state: fresh `gobu` with an empty version string, nothing
applied. -/
def st0 : TState :=
  { gb := freshGobu "", applied := [] }

/-- Unfolding of one `apply` loop iteration. -/
theorem applyList_cons (rec : Ext → TState → List String → Except Unit TState)
    (ext : Ext) (st : TState) (n : String) (rest : List String) :
    applyList rec ext st (n :: rest) =
      if st.applied.contains (parseTrait n) then applyList rec ext st rest
      else if isRegistered (parseTrait n) then
        match runEffect rec ext (parseTrait n) (paramOf n) st with
        | .error e => .error e
        | .ok st1 =>
            applyList rec ext
              { st1 with applied := parseTrait n :: st1.applied } rest
      else applyList rec ext st rest := rfl

/-- A freshly marked base name is in the applied set. -/
theorem contains_cons_self (l : List String) (b : String) :
    (b :: l).contains b = true := by
  simp [List.elem_iff]

/-- Bridge from the Bool-valued membership test to its negated proposition. -/
theorem contains_ne_true {l : List String} {b : String}
    (h : l.contains b = false) : ¬ (l.contains b = true) := by
  rw [h]
  simp

/-- The base name of a token built by prefixing `ldflags=` to a value is
`ldflags=`, whatever the value contains. -/
theorem parseTrait_ldflags (flags : String) :
    parseTrait ("ldflags=" ++ flags) = "ldflags=" := by
  obtain ⟨l⟩ := flags
  rfl

/-- The parameter of a token built by prefixing `ldflags=` to a value is
exactly that value. -/
theorem paramOf_ldflags (flags : String) :
    paramOf ("ldflags=" ++ flags) = flags := by
  obtain ⟨l⟩ := flags
  rfl

/-- C1 counterexample: `Getcmd` does not leave every field of the build
configuration unchanged — on a fresh configuration it overwrites the empty
`binary` and `subcmd` fields with the defaults "go" and "build". -/
theorem getcmd_mutates_counterexample :
    ¬ (((freshGobu "v").Getcmd).1 = freshGobu "v") := by decide

/-- C1 (amended): `Getcmd` is deterministic and idempotent — a second call on
the state returned by the first returns the identical state, command vector
and environment vector — and its only mutation is defaulting: every field
other than `binary` and `subcmd` is unchanged, while `binary` and `subcmd`
are overwritten exactly when previously empty, with "go" and "build". -/
theorem getcmd_idempotent_frame (g : gobu) :
    ((g.Getcmd).1).Getcmd = g.Getcmd
  ∧ (g.Getcmd).1.ldflags = g.ldflags
  ∧ (g.Getcmd).1.buildflags = g.buildflags
  ∧ (g.Getcmd).1.gcflags = g.gcflags
  ∧ (g.Getcmd).1.environ = g.environ
  ∧ (g.Getcmd).1.givenOs = g.givenOs
  ∧ (g.Getcmd).1.version = g.version
  ∧ (g.Getcmd).1.name = g.name
  ∧ (g.Getcmd).1.dopackage = g.dopackage
  ∧ (g.Getcmd).1.binary = (if g.binary = "" then "go" else g.binary)
  ∧ (g.Getcmd).1.subcmd = (if g.subcmd = "" then "build" else g.subcmd) := by
  by_cases hb : g.binary = "" <;> by_cases hs : g.subcmd = "" <;>
    simp [gobu.Getcmd, hb, hs]

/-- C9: `Getcmd` renders the command vector exactly as §4.1 of the spec
describes it — tool binary defaulting to "go", subcommand defaulting to
"build", the build flags in append order, then only if non-empty the
space-joined link flags as the single argument of `-ldflags` and only if
non-empty the space-joined compile flags as the single argument of
`-gcflags` — together with the environment vector in append order. -/
theorem getcmd_renders_spec (g : gobu) :
    (g.Getcmd).2.1 = renderCommandSpec g ∧ (g.Getcmd).2.2 = g.environ := by
  by_cases h1 : g.buildflags = [] <;> by_cases h2 : g.ldflags = [] <;>
    by_cases h3 : g.gcflags = [] <;>
      simp [gobu.Getcmd, renderCommandSpec, h1, h2, h3]

/-- C5: on a fresh build configuration carrying a given version string,
applying the composite token "release" produces the same `gobu` as applying
its five constituents "shrink", "version", "static", "rebuild", "trimpath"
directly in that order, for every external input (timestamp, host platform,
binary path). -/
theorem release_composite_expansion (ext : Ext) (ver : String) :
    gbOf (apply ext ⟨freshGobu ver, []⟩ ["release"]) =
      gbOf (apply ext ⟨freshGobu ver, []⟩
        ["shrink", "version", "static", "rebuild", "trimpath"]) := rfl

/-- C2 counterexample: the engine can terminate abruptly — applying the
registered token "name=x" when the binary-path resolution of `getBinaryName`
fails reaches the `panic(err)` in the `name=` trait closure (modelled as
`Except.error ()`), instead of returning an error value. -/
theorem apply_name_flag_panics_counterexample :
    apply extNoPath st0 ["name=x"] = .error () := rfl

/-- C6 counterexample: an `ldflags=` override does not discard prior
accumulation for every prefix — after the prefix `["ldflags=-a"]` the base
name `ldflags=` is already in the applied set, so applying
`["ldflags=-a", "ldflags=-s"]` leaves the link flags at `["-a"]`, not
`["-s"]`. -/
theorem ldflags_override_counterexample :
    ldflagsOf (apply extOk st0 ["ldflags=-a", "ldflags=-s"]) = some ["-a"]
  ∧ some ["-a"] ≠ some (["-s"] : List String) :=
  ⟨by decide, by decide⟩

/-- Membership after one `check` loop step: the accumulator keeps its members
and gains the base name of the token exactly when that base is not
registered. -/
theorem invStep_mem (inv : List String) (n b : String) :
    b ∈ invStep inv n ↔
      b ∈ inv ∨ (isRegistered (parseTrait n) = false ∧ b = parseTrait n) := by
  unfold invStep
  split_ifs with h1 h2
  · simp [h1]
  · have hm : parseTrait n ∈ inv := List.elem_iff.mp h2
    have h1f : isRegistered (parseTrait n) = false := by
      simpa using h1
    simp only [h1f, true_and]
    constructor
    · exact fun h => Or.inl h
    · rintro (h | rfl)
      · exact h
      · exact hm
  · have h1f : isRegistered (parseTrait n) = false := by
      simpa using h1
    simp [h1f, List.mem_append]

/-- Membership in the fold underlying `invalidBases`, generalized over the
accumulator. -/
theorem foldl_invStep_mem (names : List String) :
    ∀ (acc : List String) (b : String),
      b ∈ names.foldl invStep acc ↔
        b ∈ acc ∨ (isRegistered b = false ∧ ∃ n ∈ names, parseTrait n = b) := by
  induction names with
  | nil => simp
  | cons n rest ih =>
      intro acc b
      rw [List.foldl_cons, ih, invStep_mem]
      constructor
      · rintro ((h | ⟨hreg, rfl⟩) | ⟨hreg, m, hm, hb⟩)
        · exact Or.inl h
        · exact Or.inr ⟨hreg, n, by simp, rfl⟩
        · exact Or.inr ⟨hreg, m, by simp [hm], hb⟩
      · rintro (h | ⟨hreg, m, hm, hb⟩)
        · exact Or.inl (Or.inl h)
        · rcases List.mem_cons.mp hm with rfl | hm2
          · exact Or.inl (Or.inr ⟨hb ▸ hreg, hb.symm⟩)
          · exact Or.inr ⟨hreg, m, hm2, hb⟩

/-- A base name is collected by `invalidBases` exactly when it is not
registered and is the base of some requested token. -/
theorem invalidBases_mem (names : List String) (b : String) :
    b ∈ invalidBases names ↔
      isRegistered b = false ∧ ∃ n ∈ names, parseTrait n = b := by
  unfold invalidBases
  rw [foldl_invStep_mem]
  simp

/-- C3: `check` scans the whole token list: it succeeds exactly when every
token's base name is registered; when it fails, the single returned failure
carries precisely the set of unregistered base names occurring in the list;
and on the tokens "foo", "bar", "release" it reports exactly the two invalid
names "foo" and "bar". -/
theorem check_reports_all_invalid (names : List String) :
    (check names = none ↔ ∀ n ∈ names, isRegistered (parseTrait n) = true)
  ∧ (∀ b l, check names = some l →
      (b ∈ l ↔ isRegistered b = false ∧ ∃ n ∈ names, parseTrait n = b))
  ∧ check ["foo", "bar", "release"] = some ["foo", "bar"] := by
  refine ⟨?_, ?_, by decide⟩
  · have h1 : check names = none ↔ invalidBases names = [] := by
      unfold check
      split <;> simp_all
    rw [h1, List.eq_nil_iff_forall_not_mem]
    constructor
    · intro h n hn
      by_contra hreg
      exact h (parseTrait n)
        ((invalidBases_mem names (parseTrait n)).mpr
          ⟨by simpa using hreg, n, hn, rfl⟩)
    · intro h b hb
      rcases (invalidBases_mem names b).mp hb with ⟨hreg, n, hn, hbase⟩
      have ht := h n hn
      rw [hbase] at ht
      rw [ht] at hreg
      simp at hreg
  · intro b l hl
    have hli : l = invalidBases names := by
      unfold check at hl
      split at hl
      · exact absurd hl (by simp)
      · simpa using hl.symm
    rw [hli]
    exact invalidBases_mem names b

/-- C3 witness: by the left-to-right reading of `check_reports_all_invalid`,
checking the single registered token "release" succeeds. -/
theorem check_reports_all_invalid_witness : check ["release"] = none :=
  (check_reports_all_invalid ["release"]).1.mpr (by decide)

/-- C4: trait application is idempotent — naming any token twice in a row
yields exactly the state of naming it once, for every starting state and
external input; and more generally any token whose base name is already in
the applied set is skipped outright. -/
theorem apply_idempotent :
    (∀ (ext : Ext) (t : String) (st : TState),
        apply ext st [t, t] = apply ext st [t])
  ∧ (∀ (ext : Ext) (n : String) (rest : List String) (st : TState),
        st.applied.contains (parseTrait n) = true →
        apply ext st (n :: rest) = apply ext st rest) := by
  constructor
  · intro ext t st
    show applyList (applyFuel 1) ext st [t, t] =
      applyList (applyFuel 1) ext st [t]
    by_cases hc : st.applied.contains (parseTrait t) = true
    · rw [applyList_cons, if_pos hc, applyList_cons, if_pos hc]
    · by_cases hr : isRegistered (parseTrait t) = true
      · rw [applyList_cons, if_neg hc, if_pos hr,
          applyList_cons, if_neg hc, if_pos hr]
        cases hE : runEffect (applyFuel 1) ext (parseTrait t) (paramOf t) st
          with
        | error e => rfl
        | ok st1 =>
            dsimp only
            rw [applyList_cons, if_pos (contains_cons_self st1.applied _)]
      · rw [applyList_cons, if_neg hc, if_neg hr]
  · intro ext n rest st h
    show applyList (applyFuel 1) ext st (n :: rest) =
      applyList (applyFuel 1) ext st rest
    rw [applyList_cons, if_pos h]

/-- C4 witness: with "nocgo" already in the applied set, a further "nocgo"
token is skipped. -/
theorem apply_idempotent_witness :
    apply extOk { gb := freshGobu "", applied := ["nocgo"] }
        ["nocgo", "shrink"] =
      apply extOk { gb := freshGobu "", applied := ["nocgo"] } ["shrink"] :=
  apply_idempotent.2 extOk "nocgo" ["shrink"]
    { gb := freshGobu "", applied := ["nocgo"] } (by decide)

/-- C7: conflicting environment traits resolve last-wins in caller order —
from any starting configuration with a fresh applied set, applying "linux"
then "windows" leaves the target OS "windows" and applying "windows" then
"linux" leaves it "linux" — and `TargetOs` falls back to the host OS when no
GOOS override was ever set. -/
theorem os_conflict_last_wins :
    (∀ (ext : Ext) (g : gobu),
        ∃ st', apply ext ⟨g, []⟩ ["linux", "windows"] = .ok st'
          ∧ st'.gb.TargetOs ext.hostOS = "windows")
  ∧ (∀ (ext : Ext) (g : gobu),
        ∃ st', apply ext ⟨g, []⟩ ["windows", "linux"] = .ok st'
          ∧ st'.gb.TargetOs ext.hostOS = "linux")
  ∧ (∀ (hostOS : String) (g : gobu), g.givenOs = "" →
        g.TargetOs hostOS = hostOS) := by
  refine ⟨fun ext g => ⟨_, rfl, rfl⟩, fun ext g => ⟨_, rfl, rfl⟩, ?_⟩
  intro hostOS g h
  simp [gobu.TargetOs, h]

/-- C7 witness: a fresh configuration has no GOOS override, so the target OS
is the host OS. -/
theorem os_conflict_last_wins_witness :
    (freshGobu "v").TargetOs "darwin" = "darwin" :=
  os_conflict_last_wins.2.2 "darwin" (freshGobu "v") rfl

/-- C10: a token whose base name is not registered is silently skipped by
`apply`: it neither fails nor changes the configuration or the applied set,
and the rest of the list is processed as if the token were absent; a lone
unknown token returns the starting state unchanged. -/
theorem apply_skips_unknown :
    (∀ (ext : Ext) (st : TState) (n : String) (rest : List String),
        isRegistered (parseTrait n) = false →
        apply ext st (n :: rest) = apply ext st rest)
  ∧ (∀ (ext : Ext) (st : TState) (n : String),
        isRegistered (parseTrait n) = false →
        apply ext st [n] = .ok st) := by
  have h1 : ∀ (ext : Ext) (st : TState) (n : String) (rest : List String),
      isRegistered (parseTrait n) = false →
      apply ext st (n :: rest) = apply ext st rest := by
    intro ext st n rest h
    show applyList (applyFuel 1) ext st (n :: rest) =
      applyList (applyFuel 1) ext st rest
    by_cases hc : st.applied.contains (parseTrait n) = true
    · rw [applyList_cons, if_pos hc]
    · rw [applyList_cons, if_neg hc, if_neg (by simp [h])]
  exact ⟨h1, fun ext st n h => h1 ext st n [] h⟩

/-- C10 witness: the unregistered token "foo" leaves the fresh state
untouched. -/
theorem apply_skips_unknown_witness :
    apply extOk st0 ["foo"] = .ok st0 :=
  apply_skips_unknown.2 extOk st0 "foo" (by decide)

/-- C6 (amended): an explicit `ldflags=` override discards prior accumulation
provided its base name has not already been applied in the prefix — in that
case the resulting link flags are exactly the single override value — and in
particular applying "shrink" then "ldflags=-s" yields link flags exactly
`["-s"]`, not `["-s -w", "-s"]`. -/
theorem ldflags_override_amended :
    (∀ (ext : Ext) (st : TState) (flags : String),
        st.applied.contains "ldflags=" = false →
        ∃ st', apply ext st ["ldflags=" ++ flags] = .ok st'
          ∧ st'.gb.ldflags = [flags])
  ∧ ldflagsOf (apply extOk st0 ["shrink", "ldflags=-s"]) = some ["-s"] := by
  refine ⟨?_, by decide⟩
  intro ext st flags h
  show ∃ st',
    applyList (applyFuel 1) ext st ["ldflags=" ++ flags] = .ok st'
      ∧ st'.gb.ldflags = [flags]
  rw [applyList_cons, parseTrait_ldflags, paramOf_ldflags,
    if_neg (contains_ne_true h), if_pos (by decide)]
  exact ⟨_, rfl, rfl⟩

/-- C6 witness: on a fresh state the override "ldflags=-s" leaves link flags
exactly `["-s"]`. -/
theorem ldflags_override_amended_witness :
    ∃ st', apply extOk st0 ["ldflags=" ++ "-s"] = .ok st'
      ∧ st'.gb.ldflags = ["-s"] :=
  ldflags_override_amended.1 extOk st0 "-s" (by decide)

/-- When the binary-path resolution succeeded, no leaf trait effect can reach
the `panic(err)` of the `name=` closure. -/
theorem runLeaf_ok (ext : Ext) (h : ext.binBase.isSome = true)
    (b p : String) (g : gobu) : ∃ g', runLeaf ext b p g = .ok g' := by
  unfold runLeaf
  split
  all_goals try exact ⟨_, rfl⟩
  split
  · rename_i heq
    rw [heq] at h
    simp at h
  · exact ⟨_, rfl⟩

/-- When the binary-path resolution succeeded and the re-entrant `apply`
callback never fails, no registered trait effect fails. -/
theorem runEffect_ok
    (rec : Ext → TState → List String → Except Unit TState) (ext : Ext)
    (h : ext.binBase.isSome = true)
    (hrec : ∀ (st : TState) (names : List String),
      ∃ st', rec ext st names = .ok st')
    (b p : String) (st : TState) :
    ∃ st1, runEffect rec ext b p st = .ok st1 := by
  unfold runEffect
  split_ifs with h1 h2 h3
  · rcases hrec st ["windows"] with ⟨st1, hw⟩
    rw [hw]
    exact ⟨_, rfl⟩
  · exact hrec st _
  · exact hrec st _
  · rcases runLeaf_ok ext h b p st.gb with ⟨g', hg⟩
    rw [hg]
    exact ⟨_, rfl⟩

/-- When the binary-path resolution succeeded, the fuelled `apply` semantics
never fails, at any fuel, on any token list, from any state. -/
theorem applyFuel_ok (ext : Ext) (h : ext.binBase.isSome = true) :
    ∀ (f : Nat) (names : List String) (st : TState),
      ∃ st', applyFuel f ext st names = .ok st' := by
  intro f
  induction f with
  | zero => exact fun names st => ⟨st, rfl⟩
  | succ f ih =>
      intro names
      induction names with
      | nil => exact fun st => ⟨st, rfl⟩
      | cons n rest ihr =>
          intro st
          show ∃ st', applyList (applyFuel f) ext st (n :: rest) = .ok st'
          rw [applyList_cons]
          by_cases hc : st.applied.contains (parseTrait n) = true
          · rw [if_pos hc]
            exact ihr st
          · rw [if_neg hc]
            by_cases hr : isRegistered (parseTrait n) = true
            · rw [if_pos hr]
              rcases runEffect_ok (applyFuel f) ext h
                  (fun st2 names2 => ih names2 st2)
                  (parseTrait n) (paramOf n) st with ⟨st1, hE⟩
              rw [hE]
              exact ihr _
            · rw [if_neg hr]
              exact ihr st

/-- C2 (amended): every engine operation returns control to the caller as a
value rather than terminating the program, with one exception the code makes
explicit — the `name=` trait effect panics when resolving the output binary
name fails; whenever that resolution succeeds, `apply` completes normally on
every token list from every state (and `check` always returns its result as
a value by construction). -/
theorem apply_no_abrupt_termination (ext : Ext)
    (h : ext.binBase.isSome = true) (st : TState) (names : List String) :
    ∃ st', apply ext st names = .ok st' :=
  applyFuel_ok ext h 2 names st

/-- C2 witness: with a resolvable binary path, even a list containing the
composite "release" and a parameterized "name=x" completes normally. -/
theorem apply_no_abrupt_termination_witness :
    ∃ st', apply extOk st0 ["release", "name=x"] = .ok st' :=
  apply_no_abrupt_termination extOk (by decide) st0 ["release", "name=x"]

/-- A trait effect that is not one of the three composites never invokes the
re-entrant `apply` callback. -/
theorem runEffect_rec_indep
    (rec rec2 : Ext → TState → List String → Except Unit TState) (ext : Ext)
    (b p : String) (st : TState) (h1 : b ≠ "windowsgui")
    (h2 : b ≠ "release") (h3 : b ≠ "default") :
    runEffect rec ext b p st = runEffect rec2 ext b p st := by
  unfold runEffect
  simp only [if_neg h1, if_neg h2, if_neg h3]

/-- On a token list free of composite base names, the `apply` loop is
independent of the re-entrant callback. -/
theorem applyList_rec_indep (ext : Ext)
    (rec rec2 : Ext → TState → List String → Except Unit TState) :
    ∀ (names : List String),
      (∀ n ∈ names, parseTrait n ≠ "windowsgui" ∧ parseTrait n ≠ "release"
        ∧ parseTrait n ≠ "default") →
      ∀ (st : TState),
        applyList rec ext st names = applyList rec2 ext st names := by
  intro names
  induction names with
  | nil => intro _ st; rfl
  | cons n rest ih =>
      intro hall st
      have hn := hall n (by simp)
      have hrest : ∀ m ∈ rest, parseTrait m ≠ "windowsgui"
          ∧ parseTrait m ≠ "release" ∧ parseTrait m ≠ "default" :=
        fun m hm => hall m (by simp [hm])
      rw [applyList_cons, applyList_cons]
      by_cases hc : st.applied.contains (parseTrait n) = true
      · rw [if_pos hc, if_pos hc]
        exact ih hrest st
      · rw [if_neg hc, if_neg hc]
        by_cases hr : isRegistered (parseTrait n) = true
        · rw [if_pos hr, if_pos hr,
            runEffect_rec_indep rec rec2 ext _ _ st hn.1 hn.2.1 hn.2.2]
          cases runEffect rec2 ext (parseTrait n) (paramOf n) st with
          | error e => rfl
          | ok st1 =>
              dsimp only
              exact ih hrest _
        · rw [if_neg hr, if_neg hr]
          exact ih hrest st

/-- On a composite-free token list, one unit of fuel is as good as any
larger amount. -/
theorem applyFuel_succ_leafonly (f : Nat) (ext : Ext) (names : List String)
    (hleaf : ∀ n ∈ names, parseTrait n ≠ "windowsgui"
      ∧ parseTrait n ≠ "release" ∧ parseTrait n ≠ "default")
    (st : TState) :
    applyFuel (f + 1) ext st names = applyFuel 1 ext st names :=
  applyList_rec_indep ext (applyFuel f) (applyFuel 0) names hleaf st

/-- The `apply` loop behaves identically whether its composite effects
re-enter with fuel `f + 1` or with fuel 1: the constituents of every
registered composite are non-composite, so the nesting depth is bounded. -/
theorem applyList_fuel_drop (f : Nat) (ext : Ext) :
    ∀ (names : List String) (st : TState),
      applyList (applyFuel (f + 1)) ext st names =
        applyList (applyFuel 1) ext st names := by
  intro names
  induction names with
  | nil => intro st; rfl
  | cons n rest ih =>
      intro st
      rw [applyList_cons, applyList_cons]
      by_cases hc : st.applied.contains (parseTrait n) = true
      · rw [if_pos hc, if_pos hc]
        exact ih st
      · rw [if_neg hc, if_neg hc]
        by_cases hr : isRegistered (parseTrait n) = true
        · rw [if_pos hr, if_pos hr]
          have hE : runEffect (applyFuel (f + 1)) ext
                (parseTrait n) (paramOf n) st =
              runEffect (applyFuel 1) ext (parseTrait n) (paramOf n) st := by
            by_cases h1 : parseTrait n = "windowsgui"
            · unfold runEffect
              rw [if_pos h1, if_pos h1,
                applyFuel_succ_leafonly f ext ["windows"] (by decide) st]
            · by_cases h2 : parseTrait n = "release"
              · unfold runEffect
                simp only [if_neg h1, if_pos h2]
                exact applyFuel_succ_leafonly f ext
                  ["shrink", "version", "static", "rebuild", "trimpath"]
                  (by decide) st
              · by_cases h3 : parseTrait n = "default"
                · unfold runEffect
                  simp only [if_neg h1, if_neg h2, if_pos h3]
                  exact applyFuel_succ_leafonly f ext ["version"]
                    (by decide) st
                · exact runEffect_rec_indep _ _ ext _ _ st h1 h2 h3
          rw [hE]
          cases runEffect (applyFuel 1) ext (parseTrait n) (paramOf n) st with
          | error e => rfl
          | ok st1 =>
              dsimp only
              exact ih _
        · rw [if_neg hr, if_neg hr]
          exact ih st

/-- C8: `apply` terminates on every input token list over the registered
trait set — the fuelled semantics is already exact at recursion depth 2, so
giving the composite expansion any extra recursion budget changes nothing:
on this registry every composite expands into non-composite constituents and
the applied-set check bounds every invocation. -/
theorem apply_fuel_stabilizes (f : Nat) (ext : Ext) (st : TState)
    (names : List String) :
    applyFuel (f + 2) ext st names = apply ext st names :=
  applyList_fuel_drop f ext names st

end GobuM
